import Mathlib

/-
Verification of the schema parser and relationship-inference component of
src/tools/parse_schema.py (shallow embedding).

The Python parsers take a file path, read it, and process the resulting raw
text; here they are embedded as total functions from the raw text (after file
reading) to the table mapping, matching the contract
parse(raw_text) -> mapping<table name, sequence<Column>>.

Python dictionaries are embedded as association lists in insertion order;
assignment to an existing key replaces the value in place and keeps the key
position, assignment to a new key appends (dictInsert below).

Python string primitives used by the source are embedded explicitly over
List Char so that every definition is structurally recursive and evaluates
inside the kernel:
  * s.strip()                -> pyStrip    (ASCII whitespace)
  * s.startswith(p)          -> pyStartsWith
  * s.endswith(p)            -> pyEndsWith
  * p in s                   -> pyContains (substring containment)
  * s.upper()                -> pyUpper
  * s.replace(p, "")         -> pyRemoveAll (all non-overlapping occurrences,
                                left to right)
  * content.split("\n")      -> splitNl
  * re.split(r"\s{2,}", s)   -> pySplitWs2 (split on maximal runs of 2 or
                                more whitespace characters; a single
                                whitespace character stays inside a part)
-/

namespace SchemaTest

/-- Column descriptor as built by both parsers in parse_schema.py:
dictionaries with keys name, type, nullable, primary_key. -/
structure Column where
  name : String
  type : String
  nullable : Bool
  primary_key : Bool
deriving DecidableEq, Repr

/-- A parsed schema: mapping from table name to its ordered column list,
in insertion order (Python dict). -/
abbrev Tables := List (String × List Column)

/-- Keys of the mapping, in iteration order. -/
def keys (tabs : Tables) : List String := tabs.map Prod.fst

/-- Python `k in tables` (dict key membership). -/
def containsKey (tabs : Tables) (k : String) : Bool := (keys tabs).contains k

/-- Python `tables[k] = v`: replace in place when the key exists (keeping its
position), append otherwise. -/
def dictInsert (tabs : Tables) (k : String) (v : List Column) : Tables :=
  if containsKey tabs k then
    tabs.map (fun p => if p.1 = k then (k, v) else p)
  else tabs ++ [(k, v)]

/-- Whether the character list starts with the given pattern. -/
def listStartsWith : List Char → List Char → Bool
  | _, [] => true
  | [], _ :: _ => false
  | c :: cs, p :: ps => c == p && listStartsWith cs ps

/-- Python s.startswith(p). -/
def pyStartsWith (s p : String) : Bool := listStartsWith s.data p.data

/-- Python s.endswith(p). -/
def pyEndsWith (s p : String) : Bool := listStartsWith s.data.reverse p.data.reverse

/-- Substring occurrence test over character lists. -/
def containsSub (pat : List Char) : List Char → Bool
  | [] => pat.isEmpty
  | c :: cs => listStartsWith (c :: cs) pat || containsSub pat cs

/-- Python `p in s` (substring containment). -/
def pyContains (s p : String) : Bool := containsSub p.data s.data

/-- Python s.upper() (ASCII; all markers compared by the source are ASCII). -/
def pyUpper (s : String) : String := String.mk (s.data.map Char.toUpper)

/-- Python s.strip() (ASCII whitespace). -/
def pyStrip (s : String) : String :=
  String.mk (((s.data.dropWhile Char.isWhitespace).reverse.dropWhile Char.isWhitespace).reverse)

/-- Helper for splitNl: split a character list on newline characters,
keeping empty pieces (Python str.split). -/
def splitNlAux : List Char → List (List Char)
  | [] => [[]]
  | c :: cs =>
    if c = '\n' then [] :: splitNlAux cs
    else
      match splitNlAux cs with
      | [] => [[c]]
      | p :: ps => (c :: p) :: ps

/-- Python content.split("\n"). -/
def splitNl (s : String) : List String := (splitNlAux s.data).map String.mk

/-- Group a character list into maximal runs of whitespace / non-whitespace. -/
def chunkRuns : List Char → List (List Char)
  | [] => []
  | c :: cs =>
    match chunkRuns cs with
    | [] => [[c]]
    | [] :: gs => [c] :: [] :: gs
    | (d :: ds) :: gs =>
      if c.isWhitespace == d.isWhitespace then (c :: d :: ds) :: gs
      else [c] :: (d :: ds) :: gs

/-- Whether a run consists of whitespace characters (runs are homogeneous,
so the first character decides). -/
def isWsRun : List Char → Bool
  | [] => false
  | c :: _ => c.isWhitespace

/-- Assemble parts from runs: a whitespace run of length at least 2 is a
separator, any other run is appended to the current part. -/
def partsOfRuns : List (List Char) → List Char → List (List Char)
  | [], acc => [acc]
  | r :: rs, acc =>
    if isWsRun r = true ∧ 2 ≤ r.length then acc :: partsOfRuns rs []
    else partsOfRuns rs (acc ++ r)

/-- Python re.split(r"\s{2,}", s): split on maximal runs of two or more
whitespace characters; single whitespace characters stay inside parts. -/
def pySplitWs2 (s : String) : List String :=
  (partsOfRuns (chunkRuns s.data) []).map String.mk

/-- Fueled removal of all non-overlapping occurrences of a pattern, left to
right; fuel bounds the number of scanned positions. -/
def removeAllF : Nat → List Char → List Char → List Char
  | 0, _, l => l
  | _ + 1, _, [] => []
  | fuel + 1, pat, c :: cs =>
    if pat ≠ [] ∧ listStartsWith (c :: cs) pat = true then
      removeAllF fuel pat (List.drop pat.length (c :: cs))
    else c :: removeAllF fuel pat cs

/-- Python s.replace(pat, ""): remove all non-overlapping occurrences of pat,
scanning left to right.  Fuel s.length suffices: every step consumes at least
one character. -/
def pyRemoveAll (s pat : String) : String :=
  String.mk (removeAllF s.data.length pat.data s.data)

/-! ### Legacy-format parser (parse_legacy_schema_file, lines 18-76) -/

/-- Character class [A-Z_] of the legacy table-header regex. -/
def isUpperOrUnderscore (c : Char) : Bool := ('A' ≤ c && c ≤ 'Z') || c == '_'

/-- Legacy table header recognition and name extraction: the stripped line
must match ^[A-Z_]+\s+TABLE:$ (nonempty [A-Z_] token, at least one whitespace
character, then exactly "TABLE:"); the name is what
re.sub(r"\s+TABLE:$", "", line).strip() leaves, i.e. the [A-Z_]+ token. -/
def legacyHeaderName (line : String) : Option String :=
  let nm := line.data.takeWhile isUpperOrUnderscore
  let r1 := line.data.dropWhile isUpperOrUnderscore
  let ws := r1.takeWhile Char.isWhitespace
  let r2 := r1.dropWhile Char.isWhitespace
  if nm ≠ [] ∧ ws ≠ [] ∧ r2 = "TABLE:".data then some (String.mk nm) else none

/-- Fixed identifier allow-list used for legacy primary-key inference
(parse_schema.py line 61). -/
def legacyPKList : List String :=
  ["EVID", "ORID", "ARID", "AMPID", "MAGID", "COMMID", "TAGID", "WFID", "QCMASKID"]

/-- Column descriptor built by the legacy parser from name and type
(parse_schema.py lines 61-68). -/
def mkLegacyColumn (name ty : String) : Column :=
  let pk := legacyPKList.contains name
  { name := name, type := ty, nullable := !pk, primary_key := pk }

/-- Column extraction from a stripped legacy line: split on runs of 2+
whitespace; at least 2 parts required, first two used, rest ignored
(parse_schema.py lines 54-68). -/
def legacyColumnOfLine (stripped : String) : Option Column :=
  let parts := pySplitWs2 stripped
  if 2 ≤ parts.length then
    some (mkLegacyColumn (pyStrip (parts.getD 0 "")) (pyStrip (parts.getD 1 "")))
  else none

/-! ### Modern-format parser (parse_ndc_plus_schema_file, lines 79-143) -/

/-- Fixed allow-list in the modern primary-key heuristic
(parse_schema.py line 134). -/
def ndcAllowList : List String := ["INID", "STA_GRP_NAME"]

/-- Column descriptor built by the modern parser from name, nullability marker
and type (parse_schema.py lines 130-135).  Python operator precedence:
`A and B or C` is (A and B) or C. -/
def mkNdcColumn (name marker ty : String) : Column :=
  { name := name, type := ty,
    nullable := marker != "NOT NULL",
    primary_key := (marker == "NOT NULL" && name == "UUID") || ndcAllowList.contains name }

/-- Decomposition of a stripped modern column line into
(name, nullability marker, type): split on runs of 2+ whitespace; with
exactly 3 parts the middle one is the marker, with exactly 2 the marker
defaults to "NULL", any other count is rejected
(parse_schema.py lines 114-128). -/
def ndcParts (line : String) : Option (String × String × String) :=
  let parts := pySplitWs2 line
  if parts.length = 3 then
    some (pyStrip (parts.getD 0 ""), pyStrip (parts.getD 1 ""), pyStrip (parts.getD 2 ""))
  else if parts.length = 2 then
    some (pyStrip (parts.getD 0 ""), "NULL", pyStrip (parts.getD 1 ""))
  else none

/-- Column produced by the modern parser from a stripped candidate line. -/
def ndcColumnOfLine (line : String) : Option Column :=
  (ndcParts line).map (fun x => mkNdcColumn x.1 x.2.1 x.2.2)

/-! ### The shared line-machine shape of both parsers

Both Python functions are the same while-loop over lines with state
(tables, current_table, current_columns); they differ only in how a line is
recognized as a table header and how a line is accepted as a column.  The
loop is embedded once (genStep/genLoop) and instantiated twice.  The Python
truthiness test `if current_table` (None or empty string both falsy) is
embedded by representing "no open table" as the empty string. -/

/-- Parser state: result mapping built so far, current table name
("" when no table is open, matching Python None/'' falsiness), and the
columns collected for it. -/
structure PState where
  tables : Tables
  cur : String
  cols : List Column
deriving DecidableEq, Repr

/-- Save the in-progress table: Python
`if current_table and current_columns: tables[current_table] = current_columns`. -/
def flushState (st : PState) : Tables :=
  if st.cur ≠ "" ∧ st.cols ≠ [] then dictInsert st.tables st.cur st.cols else st.tables

/-- One loop iteration: a header line flushes the current table and opens a
new one with no columns; otherwise, with a table open, an accepted column
line is appended; every other line is skipped. -/
def genStep (hOf : String → Option String) (cOf : String → Option Column)
    (st : PState) (raw : String) : PState :=
  match hOf raw with
  | some name => ⟨flushState st, name, []⟩
  | none =>
    if st.cur ≠ "" then
      match cOf raw with
      | some c => ⟨st.tables, st.cur, st.cols ++ [c]⟩
      | none => st
    else st

/-- The while-loop over the line list; at end of input the in-progress table
is flushed. -/
def genLoop (hOf : String → Option String) (cOf : String → Option Column) :
    List String → PState → Tables
  | [], st => flushState st
  | raw :: rest, st => genLoop hOf cOf rest (genStep hOf cOf st raw)

/-- Legacy header recognition: the regex is applied to the stripped line. -/
def legacyHeaderOf (raw : String) : Option String := legacyHeaderName (pyStrip raw)

/-- Legacy column acceptance: blank stripped lines are skipped; otherwise the
original, unstripped line must start with a space character
(parse_schema.py lines 46-52: `original_line.startswith(' ')`). -/
def legacyColOf (raw : String) : Option Column :=
  let line := pyStrip raw
  if line = "" then none
  else if pyStartsWith raw " " then legacyColumnOfLine line
  else none

/-- parse_legacy_schema_file, as a function of the raw file text. -/
def parse_legacy_schema_file (content : String) : Tables :=
  genLoop legacyHeaderOf legacyColOf (splitNl content) ⟨[], "", []⟩

/-- Modern header recognition: stripped line starting with "TABLE:"; the name
is line.replace("TABLE:", "").strip() (parse_schema.py lines 95-101). -/
def ndcHeaderOf (raw : String) : Option String :=
  let line := pyStrip raw
  if pyStartsWith line "TABLE:" then some (pyStrip (pyRemoveAll line "TABLE:")) else none

/-- Modern column acceptance: lines starting with "Column" or "---" and blank
lines are skipped (parse_schema.py line 107); any other stripped line is a
candidate column line. -/
def ndcColOf (raw : String) : Option Column :=
  let line := pyStrip raw
  if pyStartsWith line "Column" || pyStartsWith line "---" || line == "" then none
  else ndcColumnOfLine line

/-- parse_ndc_plus_schema_file, as a function of the raw file text. -/
def parse_ndc_plus_schema_file (content : String) : Tables :=
  genLoop ndcHeaderOf ndcColOf (splitNl content) ⟨[], "", []⟩

/-! ### Type mapping (lines 260-275 and 628-641) -/

/-- map_oracle_type_to_json (parse_schema.py lines 260-275): note that CLOB is
tested only after VARCHAR/CHAR, NUMBER/FLOAT, DATE/TIMESTAMP and RAW. -/
def map_oracle_type_to_json (oracle_type : String) : String :=
  if pyContains (pyUpper oracle_type) "VARCHAR" || pyContains (pyUpper oracle_type) "CHAR" then
    "string"
  else if pyContains (pyUpper oracle_type) "NUMBER" || pyContains (pyUpper oracle_type) "FLOAT" then
    "number"
  else if pyContains (pyUpper oracle_type) "DATE" || pyContains (pyUpper oracle_type) "TIMESTAMP" then
    "timestamp"
  else if pyContains (pyUpper oracle_type) "RAW" then "binary"
  else if pyContains (pyUpper oracle_type) "CLOB" then "string"
  else "string"

/-- map_oracle_to_json_type (parse_schema.py lines 628-641): CLOB is grouped
with the string-like markers in the first test. -/
def map_oracle_to_json_type (oracle_type : String) : String :=
  if pyContains (pyUpper oracle_type) "VARCHAR" || pyContains (pyUpper oracle_type) "CHAR" ||
      pyContains (pyUpper oracle_type) "CLOB" then
    "string"
  else if pyContains (pyUpper oracle_type) "NUMBER" || pyContains (pyUpper oracle_type) "FLOAT" then
    "number"
  else if pyContains (pyUpper oracle_type) "TIMESTAMP" || pyContains (pyUpper oracle_type) "DATE" then
    "timestamp"
  else if pyContains (pyUpper oracle_type) "RAW" then "binary"
  else "string"

/-- The type mapping exactly as the specification words it (case-insensitive
substring matching in the precedence order: string-like markers VARCHAR,
CHAR, CLOB first; then NUMBER, FLOAT; then DATE, TIMESTAMP; then RAW;
default "string").  Stated from the spec for comparison with the two source
functions. -/
def map_vendor_type_spec (declared : String) : String :=
  if pyContains (pyUpper declared) "VARCHAR" || pyContains (pyUpper declared) "CHAR" ||
      pyContains (pyUpper declared) "CLOB" then
    "string"
  else if pyContains (pyUpper declared) "NUMBER" || pyContains (pyUpper declared) "FLOAT" then
    "number"
  else if pyContains (pyUpper declared) "DATE" || pyContains (pyUpper declared) "TIMESTAMP" then
    "timestamp"
  else if pyContains (pyUpper declared) "RAW" then "binary"
  else "string"

/-! ### Relationship inference (identify_relationships, lines 687-727) -/

/-- Intra-schema relationship edge; the optional note models the extra
'note' key of the WFID special case. -/
structure Edge where
  from_table : String
  from_column : String
  to_table : String
  to_column : String
  note : Option String := none
deriving DecidableEq, Repr

/-- The edges contributed by one column of one table: the three independent
pattern rules of identify_relationships, in source order.  Note that the
Python computes the referenced name with col_name.replace('_UUID', '') /
replace('_GID', ''), which removes every occurrence of the pattern, not only
the suffix. -/
def edgesForColumn (tabs : Tables) (table_name : String) (col : Column) : List Edge :=
  (if pyEndsWith col.name "_UUID" = true ∧ col.name ≠ "UUID" then
    (if containsKey tabs (pyRemoveAll col.name "_UUID") = true then
      [⟨table_name, col.name, pyRemoveAll col.name "_UUID", "UUID", none⟩]
     else [])
   else []) ++
  (if pyEndsWith col.name "_GID" = true ∧ col.name ≠ "GID" then
    (if containsKey tabs (pyRemoveAll col.name "_GID") = true then
      [⟨table_name, col.name, pyRemoveAll col.name "_GID", "UUID", none⟩]
     else [])
   else []) ++
  (if col.name = "WFID" then
    [⟨table_name, col.name, "WAVEFORM", "WFID", some "External reference"⟩]
   else [])

/-- identify_relationships: scan tables in mapping order and columns in
declaration order, accumulating the edges of the three rules. -/
def identify_relationships (tabs : Tables) : List Edge :=
  tabs.flatMap (fun p => p.2.flatMap (fun col => edgesForColumn tabs p.1 col))

/-! ### Cross-schema inference (identify_cross_schema_relationships, 146-171) -/

/-- Cross-schema conceptual mapping record. -/
structure CrossEdge where
  legacy_table : String
  ndc_plus_table : String
  relationship_type : String
  description : String
deriving DecidableEq, Repr

/-- The fixed legacy-to-modern mapping dict, in insertion order
(parse_schema.py lines 151-160). -/
def legacy_to_ndc_mappings : List (String × String) :=
  [("EVENT", "EVENT"),
   ("ARRIVAL", "FEATURE_MEASUREMENT_ARRIVAL_TIME"),
   ("AMPLITUDE", "FEATURE_MEASUREMENT_AMPLITUDE"),
   ("ORIGIN", "LOCATION_SOLUTION"),
   ("ASSOC", "SIGNAL_DETECTION_HYPOTHESIS"),
   ("STAMAG", "STATION_MAGNITUDE_SOLUTION"),
   ("NETMAG", "NETWORK_MAGNITUDE_SOLUTION"),
   ("REMARK", "REMARK")]

/-- identify_cross_schema_relationships: an edge per mapping entry whose two
table names are present in their respective parsed schemas. -/
def identify_cross_schema_relationships (legacy_tables ndc_plus_tables : Tables) :
    List CrossEdge :=
  legacy_to_ndc_mappings.filterMap (fun p =>
    if containsKey legacy_tables p.1 = true ∧ containsKey ndc_plus_tables p.2 = true then
      some ⟨p.1, p.2, "conceptual_mapping",
            "Legacy " ++ p.1 ++ " conceptually maps to NDC PLUS " ++ p.2⟩
    else none)

/-! ## Block decomposition of the parsers

A reference view of the input, independent of the loop state: the line list
is cut at header lines into blocks (header name, body lines); the accepted
columns of a block are the filterMap of the column recognizer over its body,
which preserves source line order by construction. -/

/-- Body of the current (header-less) prelude and the list of
(header, body lines) blocks of the remaining input. -/
def firstBody (hOf : String → Option String) :
    List String → List String × List (String × List String)
  | [] => ([], [])
  | raw :: rest =>
    match hOf raw with
    | some name => ([], (name, (firstBody hOf rest).1) :: (firstBody hOf rest).2)
    | none => (raw :: (firstBody hOf rest).1, (firstBody hOf rest).2)

/-- Columns accepted from a block body, in source line order. -/
def colsOfBody (cOf : String → Option Column) (body : List String) : List Column :=
  body.filterMap cOf

/-- Insertion of one (name, columns) block result into the mapping, skipping
empty names and empty column lists exactly like the parser flush. -/
def insertStep (tabs : Tables) (q : String × List Column) : Tables :=
  if q.1 ≠ "" ∧ q.2 ≠ [] then dictInsert tabs q.1 q.2 else tabs

/-- Fold the block results into a mapping. -/
def assembleCols (tabs : Tables) (bs : List (String × List Column)) : Tables :=
  bs.foldl insertStep tabs

/-- The (header, accepted columns) view of an input text. -/
def blockCols (hOf : String → Option String) (cOf : String → Option Column)
    (content : String) : List (String × List Column) :=
  ((firstBody hOf (splitNl content)).2).map (fun b => (b.1, colsOfBody cOf b.2))

/-- First-occurrence deduplication, keeping input order. -/
def dedupFirstAux (seen : List String) : List String → List String
  | [] => []
  | x :: xs =>
    if seen.contains x then dedupFirstAux seen xs
    else x :: dedupFirstAux (x :: seen) xs

/-- First-occurrence deduplication of a name list. -/
def dedupFirst (l : List String) : List String := dedupFirstAux [] l

/-- Names of the blocks that contribute an entry: nonempty header name and
at least one accepted column. -/
def yieldNames (bs : List (String × List Column)) : List String :=
  bs.filterMap (fun q => if q.1 ≠ "" ∧ q.2 ≠ [] then some q.1 else none)

/-- Blocks of a legacy input text. -/
def legacyBlocks (content : String) : List (String × List String) :=
  (firstBody legacyHeaderOf (splitNl content)).2

/-- Blocks of a modern input text. -/
def ndcBlocks (content : String) : List (String × List String) :=
  (firstBody ndcHeaderOf (splitNl content)).2

/-- Legacy table headers that yield at least one column, in input order. -/
def legacyYieldingHeaders (content : String) : List String :=
  yieldNames (blockCols legacyHeaderOf legacyColOf content)

/-- Modern table headers that yield at least one column, in input order. -/
def ndcYieldingHeaders (content : String) : List String :=
  yieldNames (blockCols ndcHeaderOf ndcColOf content)


/-! ## Helper lemmas -/

/-- A string cannot end both in "_UUID" and in "_GID": the third character
from the end would have to be both 'U' and 'G'. -/
theorem not_endsWith_UUID_and_GID (n : String) (h1 : pyEndsWith n "_UUID" = true)
    (h2 : pyEndsWith n "_GID" = true) : False := by
  have e1 : "_UUID".data.reverse = ['D', 'I', 'U', 'U', '_'] := by decide
  have e2 : "_GID".data.reverse = ['D', 'I', 'G', '_'] := by decide
  unfold pyEndsWith at h1 h2
  rw [e1] at h1
  rw [e2] at h2
  rcases hr : n.data.reverse with _ | ⟨a, _ | ⟨b, _ | ⟨c, r⟩⟩⟩ <;>
    rw [hr] at h1 h2 <;> simp_all [listStartsWith]

/-! ## Claims -/

/-- C1: for every column line accepted by the modern-format parser
(decomposed by ndcParts into name, nullability marker and type), the produced
descriptor has primary_key = true exactly when (the marker equals "NOT NULL"
and the name is exactly "UUID") or the name is "INID" or "STA_GRP_NAME". -/
theorem c1_ndc_primary_key_heuristic (line n m t : String)
    (h : ndcParts line = some (n, m, t)) :
    ndcColumnOfLine line = some (mkNdcColumn n m t) ∧
    ((mkNdcColumn n m t).primary_key = true ↔
      ((m = "NOT NULL" ∧ n = "UUID") ∨ n = "INID" ∨ n = "STA_GRP_NAME")) := by
  constructor
  · rw [ndcColumnOfLine, h]; rfl
  · simp [mkNdcColumn, ndcAllowList, List.contains_cons]

/-- C1 witness: the line "UUID  NOT NULL  RAW(16)" is accepted with marker
"NOT NULL" and name "UUID", so it is flagged primary. -/
theorem c1_witness :
    ndcColumnOfLine "UUID  NOT NULL  RAW(16)" = some (mkNdcColumn "UUID" "NOT NULL" "RAW(16)") ∧
    ((mkNdcColumn "UUID" "NOT NULL" "RAW(16)").primary_key = true ↔
      (("NOT NULL" = "NOT NULL" ∧ "UUID" = "UUID") ∨ "UUID" = "INID" ∨ "UUID" = "STA_GRP_NAME")) :=
  c1_ndc_primary_key_heuristic "UUID  NOT NULL  RAW(16)" "UUID" "NOT NULL" "RAW(16)" (by decide)

/-- C3 counterexample: the claim says string-like markers (including CLOB)
take precedence over numeric markers in the vendor-type mapping, so an input
containing both CLOB and NUMBER would map to "string"; map_oracle_type_to_json
(one of the two functions the claim describes) maps "CLOBNUMBER" to "number",
because it tests CLOB only after the numeric markers. -/
theorem c3_counterexample :
    map_oracle_type_to_json "CLOBNUMBER" = "number" ∧
    map_vendor_type_spec "CLOBNUMBER" = "string" := by
  constructor <;> decide

/-- C3 amended: map_oracle_to_json_type implements the claimed precedence
order exactly (CLOB grouped with the string-like markers); the five listed
example mappings hold for both source functions, but map_oracle_type_to_json
tests CLOB only after NUMBER/FLOAT, DATE/TIMESTAMP and RAW. -/
theorem c3_amended :
    (∀ s, map_oracle_to_json_type s = map_vendor_type_spec s) ∧
    (map_oracle_type_to_json "VARCHAR2(40)" = "string" ∧
      map_oracle_to_json_type "VARCHAR2(40)" = "string") ∧
    (map_oracle_type_to_json "NUMBER(8,3)" = "number" ∧
      map_oracle_to_json_type "NUMBER(8,3)" = "number") ∧
    (map_oracle_type_to_json "TIMESTAMP(6)" = "timestamp" ∧
      map_oracle_to_json_type "TIMESTAMP(6)" = "timestamp") ∧
    (map_oracle_type_to_json "RAW(16)" = "binary" ∧
      map_oracle_to_json_type "RAW(16)" = "binary") ∧
    (map_oracle_type_to_json "UNKNOWNTYPE" = "string" ∧
      map_oracle_to_json_type "UNKNOWNTYPE" = "string") := by
  refine ⟨fun s => ?_, by decide, by decide, by decide, by decide, by decide⟩
  unfold map_oracle_to_json_type map_vendor_type_spec
  rw [Bool.or_comm (pyContains (pyUpper s) "TIMESTAMP") (pyContains (pyUpper s) "DATE")]

/-- C4 counterexample: the two type-mapping functions disagree at the input
"CLOBDATE": map_oracle_type_to_json maps it to "timestamp" while
map_oracle_to_json_type maps it to "string". -/
theorem c4_counterexample :
    map_oracle_type_to_json "CLOBDATE" ≠ map_oracle_to_json_type "CLOBDATE" := by
  decide

/-- C4 amended: the two type-mapping functions agree on every input string
whose uppercased form does not contain "CLOB" (they can differ only on
CLOB-containing inputs, where map_oracle_type_to_json tests CLOB last). -/
theorem c4_amended (s : String) (h : pyContains (pyUpper s) "CLOB" = false) :
    map_oracle_type_to_json s = map_oracle_to_json_type s := by
  unfold map_oracle_type_to_json map_oracle_to_json_type
  rw [h]
  rw [Bool.or_comm (pyContains (pyUpper s) "TIMESTAMP") (pyContains (pyUpper s) "DATE")]
  simp

/-- C4 witness: at "NUMBER(8,3)", whose uppercased form does not contain
"CLOB", the two functions agree. -/
theorem c4_witness :
    map_oracle_type_to_json "NUMBER(8,3)" = map_oracle_to_json_type "NUMBER(8,3)" :=
  c4_amended "NUMBER(8,3)" (by decide)

/-- C5: any table containing a column named exactly "WFID" contributes an
edge to table "WAVEFORM", target column "WFID", with the external-reference
note, with no condition on "WAVEFORM" existing in the schema. -/
theorem c5_wfid_external_edge (tabs : Tables) (T : String) (cols : List Column)
    (c : Column) (hT : (T, cols) ∈ tabs) (hc : c ∈ cols) (hn : c.name = "WFID") :
    (⟨T, "WFID", "WAVEFORM", "WFID", some "External reference"⟩ : Edge) ∈
      identify_relationships tabs := by
  unfold identify_relationships
  rw [List.mem_flatMap]
  refine ⟨(T, cols), hT, ?_⟩
  rw [List.mem_flatMap]
  refine ⟨c, hc, ?_⟩
  have h1 : pyEndsWith "WFID" "_UUID" = false := by decide
  have h2 : pyEndsWith "WFID" "_GID" = false := by decide
  simp [edgesForColumn, hn, h1, h2]

/-- C5 witness: a one-table schema with a single WFID column and no WAVEFORM
table anywhere still produces the WAVEFORM-targeting edge. -/
theorem c5_witness :
    containsKey [("WFTAG", [(⟨"WFID", "NUMBER(18)", false, true⟩ : Column)])] "WAVEFORM" = false ∧
    (⟨"WFTAG", "WFID", "WAVEFORM", "WFID", some "External reference"⟩ : Edge) ∈
      identify_relationships [("WFTAG", [⟨"WFID", "NUMBER(18)", false, true⟩])] :=
  ⟨by decide,
   c5_wfid_external_edge [("WFTAG", [⟨"WFID", "NUMBER(18)", false, true⟩])] "WFTAG"
     [⟨"WFID", "NUMBER(18)", false, true⟩] ⟨"WFID", "NUMBER(18)", false, true⟩
     (by decide) (by decide) rfl⟩

/-- C6: an edge for the pair (ORIGIN, LOCATION_SOLUTION) is produced by
cross-schema inference exactly when "ORIGIN" is a table key of the legacy
mapping and "LOCATION_SOLUTION" is a table key of the modern mapping. -/
theorem c6_origin_location_solution (legacy ndc : Tables) :
    (∃ e ∈ identify_cross_schema_relationships legacy ndc,
        e.legacy_table = "ORIGIN" ∧ e.ndc_plus_table = "LOCATION_SOLUTION") ↔
      (containsKey legacy "ORIGIN" = true ∧ containsKey ndc "LOCATION_SOLUTION" = true) := by
  constructor
  · rintro ⟨e, he, hl, hn⟩
    rw [identify_cross_schema_relationships, List.mem_filterMap] at he
    obtain ⟨p, hp, hfp⟩ := he
    have hp2 : p = ("EVENT", "EVENT") ∨ p = ("ARRIVAL", "FEATURE_MEASUREMENT_ARRIVAL_TIME") ∨
        p = ("AMPLITUDE", "FEATURE_MEASUREMENT_AMPLITUDE") ∨ p = ("ORIGIN", "LOCATION_SOLUTION") ∨
        p = ("ASSOC", "SIGNAL_DETECTION_HYPOTHESIS") ∨ p = ("STAMAG", "STATION_MAGNITUDE_SOLUTION") ∨
        p = ("NETMAG", "NETWORK_MAGNITUDE_SOLUTION") ∨ p = ("REMARK", "REMARK") := by
      simpa [legacy_to_ndc_mappings] using hp
    have hgen : ∀ (a b : String),
        (if containsKey legacy a = true ∧ containsKey ndc b = true then
          some (⟨a, b, "conceptual_mapping",
                 "Legacy " ++ a ++ " conceptually maps to NDC PLUS " ++ b⟩ : CrossEdge)
         else none) = some e →
        e.legacy_table = a ∧ containsKey legacy a = true ∧ containsKey ndc b = true := by
      intro a b hab
      split at hab
      · rename_i hcond
        injection hab with hab
        exact ⟨by rw [← hab], hcond⟩
      · exact Option.noConfusion hab
    rcases hp2 with rfl | rfl | rfl | rfl | rfl | rfl | rfl | rfl
    · exact absurd ((hgen _ _ hfp).1.symm.trans hl) (by decide)
    · exact absurd ((hgen _ _ hfp).1.symm.trans hl) (by decide)
    · exact absurd ((hgen _ _ hfp).1.symm.trans hl) (by decide)
    · exact ⟨(hgen _ _ hfp).2.1, (hgen _ _ hfp).2.2⟩
    · exact absurd ((hgen _ _ hfp).1.symm.trans hl) (by decide)
    · exact absurd ((hgen _ _ hfp).1.symm.trans hl) (by decide)
    · exact absurd ((hgen _ _ hfp).1.symm.trans hl) (by decide)
    · exact absurd ((hgen _ _ hfp).1.symm.trans hl) (by decide)
  · rintro ⟨h1, h2⟩
    refine ⟨⟨"ORIGIN", "LOCATION_SOLUTION", "conceptual_mapping",
      "Legacy ORIGIN conceptually maps to NDC PLUS LOCATION_SOLUTION"⟩, ?_, rfl, rfl⟩
    rw [identify_cross_schema_relationships, List.mem_filterMap]
    refine ⟨("ORIGIN", "LOCATION_SOLUTION"), by simp [legacy_to_ndc_mappings], ?_⟩
    rw [if_pos ⟨h1, h2⟩]
    rfl

/-- C2 counterexample: a legacy schema with tables A_UUID and T, where T has
a column named A_UUID_UUID.  The column name ends with "_UUID", is not
"UUID", and its suffix-stripped form "A_UUID" is a table key, so the claim
requires the edge (T, A_UUID_UUID) -> (A_UUID, UUID); the code computes the
referenced name with replace('_UUID', ''), which removes both occurrences
and yields "A", so no edge at all is produced. -/
theorem c2_counterexample :
    parse_legacy_schema_file "A_UUID  TABLE:\n COL1  NUMBER\nT  TABLE:\n A_UUID_UUID  RAW(16)" =
      [("A_UUID", [⟨"COL1", "NUMBER", true, false⟩]),
       ("T", [⟨"A_UUID_UUID", "RAW(16)", true, false⟩])] ∧
    pyEndsWith "A_UUID_UUID" "_UUID" = true ∧
    containsKey
      (parse_legacy_schema_file "A_UUID  TABLE:\n COL1  NUMBER\nT  TABLE:\n A_UUID_UUID  RAW(16)")
      "A_UUID" = true ∧
    identify_relationships
      (parse_legacy_schema_file "A_UUID  TABLE:\n COL1  NUMBER\nT  TABLE:\n A_UUID_UUID  RAW(16)") =
      [] := by
  refine ⟨by decide, by decide, by decide, by decide⟩

/-- C2 amended: for a column c of table T whose name ends with "_UUID" and is
not exactly "UUID", with ref the column name after removing every occurrence
of "_UUID" (Python replace semantics; this equals the suffix-stripped name
whenever "_UUID" occurs only as the suffix), the edge
(T, c.name) -> (ref, UUID) is emitted if and only if ref is a table key of
the same schema mapping; and for the modern schema containing EVENT and
EVENT_HYPOTHESIS with column EVENT_UUID, exactly the single claimed edge is
produced. -/
theorem c2_amended :
    (∀ (tabs : Tables) (T : String) (cols : List Column) (c : Column),
        (T, cols) ∈ tabs → c ∈ cols → pyEndsWith c.name "_UUID" = true → c.name ≠ "UUID" →
        ((⟨T, c.name, pyRemoveAll c.name "_UUID", "UUID", none⟩ : Edge) ∈
            identify_relationships tabs ↔
          containsKey tabs (pyRemoveAll c.name "_UUID") = true)) ∧
    identify_relationships
        (parse_ndc_plus_schema_file
          "TABLE: EVENT\nUUID  NOT NULL  RAW(16)\nTABLE: EVENT_HYPOTHESIS\nUUID  NOT NULL  RAW(16)\nEVENT_UUID  RAW(16)") =
      [⟨"EVENT_HYPOTHESIS", "EVENT_UUID", "EVENT", "UUID", none⟩] := by
  constructor
  · intro tabs T cols c hT hc hend hne
    constructor
    · intro hmem
      rw [identify_relationships, List.mem_flatMap] at hmem
      obtain ⟨q, hq, hmem2⟩ := hmem
      rw [List.mem_flatMap] at hmem2
      obtain ⟨d, hd, hmem3⟩ := hmem2
      rw [edgesForColumn] at hmem3
      rcases List.mem_append.mp hmem3 with h12 | h3
      · rcases List.mem_append.mp h12 with h1 | h2
        · split at h1
          · split at h1
            · rename_i hck
              have he := List.mem_singleton.mp h1
              simp only [Edge.mk.injEq] at he
              rw [he.2.2.1]
              exact hck
            · exact absurd h1 (List.not_mem_nil _)
          · exact absurd h1 (List.not_mem_nil _)
        · split at h2
          · rename_i hgid
            split at h2
            · have he := List.mem_singleton.mp h2
              simp only [Edge.mk.injEq] at he
              exact absurd hgid.1 (fun hg =>
                not_endsWith_UUID_and_GID d.name (he.2.1 ▸ hend) hg)
            · exact absurd h2 (List.not_mem_nil _)
          · exact absurd h2 (List.not_mem_nil _)
      · split at h3
        · have he := List.mem_singleton.mp h3
          simp only [Edge.mk.injEq] at he
          exact Option.noConfusion he.2.2.2.2
        · exact absurd h3 (List.not_mem_nil _)
    · intro hck
      rw [identify_relationships, List.mem_flatMap]
      refine ⟨(T, cols), hT, ?_⟩
      rw [List.mem_flatMap]
      refine ⟨c, hc, ?_⟩
      rw [edgesForColumn]
      refine List.mem_append.mpr (Or.inl (List.mem_append.mpr (Or.inl ?_)))
      rw [if_pos ⟨hend, hne⟩, if_pos hck]
      exact List.mem_singleton.mpr rfl
  · decide

/-- C2 witness: instantiating the amended rule at the two-table example
schema: the edge is present exactly because "EVENT" (the name EVENT_UUID
with "_UUID" removed) is a table key. -/
theorem c2_witness :
    (⟨"EVENT_HYPOTHESIS", "EVENT_UUID", pyRemoveAll "EVENT_UUID" "_UUID", "UUID", none⟩ : Edge) ∈
        identify_relationships
          [("EVENT", [⟨"UUID", "RAW(16)", false, true⟩]),
           ("EVENT_HYPOTHESIS", [⟨"EVENT_UUID", "RAW(16)", true, false⟩])] ↔
      containsKey
          [("EVENT", [(⟨"UUID", "RAW(16)", false, true⟩ : Column)]),
           ("EVENT_HYPOTHESIS", [⟨"EVENT_UUID", "RAW(16)", true, false⟩])]
          (pyRemoveAll "EVENT_UUID" "_UUID") = true :=
  c2_amended.1
    [("EVENT", [⟨"UUID", "RAW(16)", false, true⟩]),
     ("EVENT_HYPOTHESIS", [⟨"EVENT_UUID", "RAW(16)", true, false⟩])]
    "EVENT_HYPOTHESIS" [⟨"EVENT_UUID", "RAW(16)", true, false⟩]
    ⟨"EVENT_UUID", "RAW(16)", true, false⟩ (by decide) (by decide) (by decide) (by decide)

/-! ## Loop structure lemmas shared by several claims -/

/-- The parser loop is the fold of the step function followed by the final
flush of the in-progress table. -/
theorem genLoop_eq_foldl (hOf : String → Option String) (cOf : String → Option Column) :
    ∀ (lines : List String) (st : PState),
      genLoop hOf cOf lines st = flushState (lines.foldl (genStep hOf cOf) st)
  | [], _ => rfl
  | raw :: rest, st => by
    rw [genLoop, List.foldl_cons]
    exact genLoop_eq_foldl hOf cOf rest (genStep hOf cOf st raw)

/-- A line recognized neither as a table header nor as a column leaves the
parser state unchanged. -/
theorem genStep_skip (hOf : String → Option String) (cOf : String → Option Column)
    (st : PState) (raw : String) (h1 : hOf raw = none) (h2 : cOf raw = none) :
    genStep hOf cOf st raw = st := by
  simp only [genStep, h1, h2, ite_self]

/-- C7 counterexample: with a table open, the line "\tCOL  NUMBER(8)" begins
with leading whitespace (a tab) and its stripped form splits into exactly 2
parts, so the claim requires a column to be produced; the legacy parser
tests startswith(' ') on the original line, rejects the tab-indented line,
and the whole input parses to the empty mapping. -/
theorem c7_counterexample :
    ("\tCOL  NUMBER(8)".data.getD 0 'x').isWhitespace = true ∧
    pyStrip "\tCOL  NUMBER(8)" = "COL  NUMBER(8)" ∧
    (pySplitWs2 "COL  NUMBER(8)").length = 2 ∧
    parse_legacy_schema_file "T  TABLE:\n\tCOL  NUMBER(8)" = [] := by
  refine ⟨by decide, by decide, by decide, by decide⟩

/-- C7 amended: while a table is open, a non-header line is parsed as a
column exactly when the original, unstripped line begins with a space
character (' ' specifically; other leading whitespace such as a tab is not
recognized) and its stripped form splits on runs of 2-or-more whitespace
characters into at least 2 parts, in which case the descriptor is built from
the first part (name) and second part (type) with any further parts ignored;
otherwise the column list is unchanged. -/
theorem c7_legacy_column_line (st : PState) (raw : String)
    (hcur : st.cur ≠ "") (hhdr : legacyHeaderName (pyStrip raw) = none) :
    (genStep legacyHeaderOf legacyColOf st raw).cols =
      (if pyStartsWith raw " " = true ∧ 2 ≤ (pySplitWs2 (pyStrip raw)).length then
        st.cols ++ [mkLegacyColumn (pyStrip ((pySplitWs2 (pyStrip raw)).getD 0 ""))
                      (pyStrip ((pySplitWs2 (pyStrip raw)).getD 1 ""))]
      else st.cols) := by
  rw [genStep, legacyHeaderOf, hhdr, if_pos hcur, legacyColOf]
  by_cases hblank : pyStrip raw = ""
  · rw [if_pos hblank]
    have hlen : (pySplitWs2 (pyStrip raw)).length = 1 := by rw [hblank]; decide
    rw [if_neg]
    intro hcontra
    omega
  · rw [if_neg hblank]
    by_cases hsp : pyStartsWith raw " " = true
    · rw [if_pos hsp, legacyColumnOfLine]
      by_cases hlen : 2 ≤ (pySplitWs2 (pyStrip raw)).length
      · rw [if_pos hlen, if_pos ⟨hsp, hlen⟩]
      · rw [if_neg hlen, if_neg (fun hc => hlen hc.2)]
    · rw [if_neg hsp, if_neg (fun hc => hsp hc.1)]

/-- C7 witness: with table "T" open, the space-indented line " A  B  C"
(three parts) produces exactly the column built from parts "A" and "B". -/
theorem c7_witness :
    (genStep legacyHeaderOf legacyColOf ⟨[], "T", []⟩ " A  B  C").cols =
      (if pyStartsWith " A  B  C" " " = true ∧ 2 ≤ (pySplitWs2 (pyStrip " A  B  C")).length then
        [] ++ [mkLegacyColumn (pyStrip ((pySplitWs2 (pyStrip " A  B  C")).getD 0 ""))
                 (pyStrip ((pySplitWs2 (pyStrip " A  B  C")).getD 1 ""))]
      else []) :=
  c7_legacy_column_line ⟨[], "T", []⟩ " A  B  C" (by decide) (by decide)

/-- C10: both parsers treat every line that is neither a recognized table
header nor an accepted column line as a silent no-op: deleting such a line
from the input, at any position, leaves the parse result unchanged, so
malformed lines have no effect on the result beyond their own omission
(and the embedded parsers are total functions of the input text). -/
theorem c10_malformed_lines_skipped :
    (∀ (ls1 ls2 : List String) (raw : String) (st : PState),
        legacyHeaderOf raw = none → legacyColOf raw = none →
        genLoop legacyHeaderOf legacyColOf (ls1 ++ raw :: ls2) st =
          genLoop legacyHeaderOf legacyColOf (ls1 ++ ls2) st) ∧
    (∀ (ls1 ls2 : List String) (raw : String) (st : PState),
        ndcHeaderOf raw = none → ndcColOf raw = none →
        genLoop ndcHeaderOf ndcColOf (ls1 ++ raw :: ls2) st =
          genLoop ndcHeaderOf ndcColOf (ls1 ++ ls2) st) := by
  constructor <;>
    (intro ls1 ls2 raw st h1 h2
     rw [genLoop_eq_foldl, genLoop_eq_foldl, List.foldl_append, List.foldl_append,
       List.foldl_cons, genStep_skip _ _ _ _ h1 h2])

/-- C10 witness: inserting the malformed lines "stray text" (legacy: no
leading space) and "LONESOMEPART" (modern: fewer than 2 parts) into otherwise
well-formed input does not change either parse state. -/
theorem c10_witness :
    genLoop legacyHeaderOf legacyColOf (["T  TABLE:", " A  B"] ++ "stray text" :: [" C  D"])
        ⟨[], "", []⟩ =
      genLoop legacyHeaderOf legacyColOf (["T  TABLE:", " A  B"] ++ [" C  D"]) ⟨[], "", []⟩ ∧
    genLoop ndcHeaderOf ndcColOf (["TABLE: T", "A  B"] ++ "LONESOMEPART" :: ["C  D"])
        ⟨[], "", []⟩ =
      genLoop ndcHeaderOf ndcColOf (["TABLE: T", "A  B"] ++ ["C  D"]) ⟨[], "", []⟩ :=
  ⟨c10_malformed_lines_skipped.1 ["T  TABLE:", " A  B"] [" C  D"] "stray text" ⟨[], "", []⟩
     (by decide) (by decide),
   c10_malformed_lines_skipped.2 ["TABLE: T", "A  B"] ["C  D"] "LONESOMEPART" ⟨[], "", []⟩
     (by decide) (by decide)⟩

theorem assembleCols_cons (tabs : Tables) (q : String × List Column)
    (bs : List (String × List Column)) :
    assembleCols tabs (q :: bs) = assembleCols (insertStep tabs q) bs := rfl

theorem insertStep_empty_name (tabs : Tables) (x : List Column) :
    insertStep tabs ("", x) = tabs := by
  rw [insertStep, if_neg]
  intro hc
  exact hc.1 rfl

/-- The parser loop equals the fold of the block results: the current block
contributes the columns collected so far plus those accepted from the rest
of its body, and each later block contributes its accepted columns. -/
theorem genLoop_blocks (hOf : String → Option String) (cOf : String → Option Column) :
    ∀ (lines : List String) (tabs : Tables) (cur : String) (cols : List Column),
      genLoop hOf cOf lines ⟨tabs, cur, cols⟩ =
        assembleCols tabs ((cur, cols ++ colsOfBody cOf (firstBody hOf lines).1) ::
          (firstBody hOf lines).2.map (fun b => (b.1, colsOfBody cOf b.2)))
  | [], tabs, cur, cols => by
    show flushState ⟨tabs, cur, cols⟩ = _
    rw [firstBody]
    show _ = assembleCols tabs [(cur, cols ++ colsOfBody cOf [])]
    rw [assembleCols_cons]
    show flushState ⟨tabs, cur, cols⟩ = insertStep tabs (cur, cols ++ [])
    rw [List.append_nil]
    rfl
  | raw :: rest, tabs, cur, cols => by
    rw [genLoop]
    cases hh : hOf raw with
    | some name =>
      have hstep : genStep hOf cOf ⟨tabs, cur, cols⟩ raw =
          ⟨flushState ⟨tabs, cur, cols⟩, name, []⟩ := by
        rw [genStep, hh]
      rw [hstep, genLoop_blocks hOf cOf rest (flushState ⟨tabs, cur, cols⟩) name []]
      have hfb : firstBody hOf (raw :: rest) =
          ([], (name, (firstBody hOf rest).1) :: (firstBody hOf rest).2) := by
        rw [firstBody, hh]
      rw [hfb]
      show _ = assembleCols tabs ((cur, cols ++ colsOfBody cOf []) :: _)
      rw [assembleCols_cons]
      show _ = assembleCols (insertStep tabs (cur, cols ++ [])) _
      rw [List.append_nil]
      show assembleCols (flushState ⟨tabs, cur, cols⟩)
          ((name, [] ++ colsOfBody cOf (firstBody hOf rest).1) :: _) = _
      rw [List.nil_append]
      rfl
    | none =>
      have hfb : firstBody hOf (raw :: rest) =
          (raw :: (firstBody hOf rest).1, (firstBody hOf rest).2) := by
        rw [firstBody, hh]
      rw [hfb]
      by_cases hcur : cur = ""
      · subst hcur
        have hstep : genStep hOf cOf ⟨tabs, "", cols⟩ raw = ⟨tabs, "", cols⟩ := by
          rw [genStep, hh]
          rw [if_neg (fun hc => hc rfl)]
        rw [hstep, genLoop_blocks hOf cOf rest tabs "" cols]
        rw [assembleCols_cons, assembleCols_cons, insertStep_empty_name, insertStep_empty_name]
      · cases hcr : cOf raw with
        | some c =>
          have hstep : genStep hOf cOf ⟨tabs, cur, cols⟩ raw =
              ⟨tabs, cur, cols ++ [c]⟩ := by
            rw [genStep, hh, if_pos hcur, hcr]
          rw [hstep, genLoop_blocks hOf cOf rest tabs cur (cols ++ [c])]
          have hbody : colsOfBody cOf (raw :: (firstBody hOf rest).1) =
              c :: colsOfBody cOf (firstBody hOf rest).1 := by
            rw [colsOfBody, List.filterMap_cons, hcr]
            rfl
          rw [hbody, List.append_assoc]
          rfl
        | none =>
          have hstep : genStep hOf cOf ⟨tabs, cur, cols⟩ raw = ⟨tabs, cur, cols⟩ := by
            rw [genStep, hh, if_pos hcur, hcr]
          rw [hstep, genLoop_blocks hOf cOf rest tabs cur cols]
          have hbody : colsOfBody cOf (raw :: (firstBody hOf rest).1) =
              colsOfBody cOf (firstBody hOf rest).1 := by
            rw [colsOfBody, List.filterMap_cons, hcr]
            rfl
          rw [hbody]

/-- The legacy parse result is the fold of its block view. -/
theorem parse_legacy_eq_blocks (content : String) :
    parse_legacy_schema_file content =
      assembleCols [] (blockCols legacyHeaderOf legacyColOf content) := by
  rw [parse_legacy_schema_file, genLoop_blocks, assembleCols_cons, insertStep_empty_name]
  rfl

/-- The modern parse result is the fold of its block view. -/
theorem parse_ndc_eq_blocks (content : String) :
    parse_ndc_plus_schema_file content =
      assembleCols [] (blockCols ndcHeaderOf ndcColOf content) := by
  rw [parse_ndc_plus_schema_file, genLoop_blocks, assembleCols_cons, insertStep_empty_name]
  rfl

theorem mem_dictInsert (tabs : Tables) (k : String) (v : List Column)
    (p : String × List Column) (h : p ∈ dictInsert tabs k v) : p ∈ tabs ∨ p = (k, v) := by
  rw [dictInsert] at h
  split at h
  · obtain ⟨a, ha, hfa⟩ := List.mem_map.mp h
    by_cases hak : a.1 = k
    · rw [if_pos hak] at hfa
      exact Or.inr hfa.symm
    · rw [if_neg hak] at hfa
      exact Or.inl (hfa ▸ ha)
  · rcases List.mem_append.mp h with h1 | h2
    · exact Or.inl h1
    · exact Or.inr (List.mem_singleton.mp h2)

/-- Every entry of the assembled mapping is either inherited or is one of
the inserted blocks, which then has a nonempty name and columns. -/
theorem mem_assembleCols : ∀ (bs : List (String × List Column)) (tabs : Tables)
    (p : String × List Column), p ∈ assembleCols tabs bs →
    p ∈ tabs ∨ ∃ q ∈ bs, p = q ∧ q.1 ≠ "" ∧ q.2 ≠ []
  | [], _, _, h => Or.inl h
  | q0 :: bs, tabs, p, h => by
    rw [assembleCols_cons] at h
    rcases mem_assembleCols bs (insertStep tabs q0) p h with h1 | ⟨q, hq, hpq⟩
    · rw [insertStep] at h1
      split at h1
      · rename_i hcond
        rcases mem_dictInsert tabs q0.1 q0.2 p h1 with h2 | h2
        · exact Or.inl h2
        · exact Or.inr ⟨q0, List.mem_cons_self _ _, h2, hcond⟩
      · exact Or.inl h1
    · exact Or.inr ⟨q, List.mem_cons_of_mem _ hq, hpq⟩

theorem keys_dictInsert_of_contains (tabs : Tables) (k : String) (v : List Column)
    (h : containsKey tabs k = true) : keys (dictInsert tabs k v) = keys tabs := by
  rw [dictInsert, if_pos h, keys, keys, List.map_map]
  refine List.map_congr_left ?_
  intro p _
  show (if p.1 = k then (k, v) else p).1 = p.1
  by_cases hpk : p.1 = k
  · rw [if_pos hpk, hpk]
  · rw [if_neg hpk]

theorem keys_dictInsert_of_not_contains (tabs : Tables) (k : String) (v : List Column)
    (h : containsKey tabs k = false) : keys (dictInsert tabs k v) = keys tabs ++ [k] := by
  rw [dictInsert, if_neg (by rw [h]; exact Bool.false_ne_true), keys, keys, List.map_append]
  rfl

/-- dedupFirstAux depends on the seen list only through membership. -/
theorem dedupFirstAux_congr : ∀ (l s1 s2 : List String),
    (∀ x, s1.contains x = s2.contains x) → dedupFirstAux s1 l = dedupFirstAux s2 l
  | [], _, _, _ => rfl
  | x :: xs, s1, s2, h => by
    rw [dedupFirstAux, dedupFirstAux, h x]
    by_cases hc : s2.contains x = true
    · rw [if_pos hc, if_pos hc, dedupFirstAux_congr xs s1 s2 h]
    · rw [if_neg hc, if_neg hc,
        dedupFirstAux_congr xs (x :: s1) (x :: s2)
          (fun y => by rw [List.contains_cons, List.contains_cons, h y])]

/-- The keys of the assembled mapping extend the inherited keys by the
yielding block names, first occurrences only, in block order. -/
theorem keys_assembleCols : ∀ (bs : List (String × List Column)) (tabs : Tables),
    keys (assembleCols tabs bs) = keys tabs ++ dedupFirstAux (keys tabs) (yieldNames bs)
  | [], tabs => by
    rw [yieldNames, List.filterMap_nil, dedupFirstAux, List.append_nil]
    rfl
  | q0 :: bs, tabs => by
    rw [assembleCols_cons, insertStep]
    split
    · rename_i hcond
      have hyield : yieldNames (q0 :: bs) = q0.1 :: yieldNames bs := by
        unfold yieldNames
        rw [List.filterMap_cons, if_pos hcond]
      rw [hyield, keys_assembleCols bs (dictInsert tabs q0.1 q0.2), dedupFirstAux]
      cases hc : containsKey tabs q0.1 with
      | true =>
        have hc2 : (keys tabs).contains q0.1 = true := hc
        rw [keys_dictInsert_of_contains tabs q0.1 q0.2 hc, if_pos hc2]
      | false =>
        have hc2 : (keys tabs).contains q0.1 = false := hc
        rw [keys_dictInsert_of_not_contains tabs q0.1 q0.2 hc,
          if_neg (by rw [hc2]; exact Bool.false_ne_true)]
        rw [dedupFirstAux_congr (yieldNames bs) (keys tabs ++ [q0.1]) (q0.1 :: keys tabs)
          (fun y => by simp [List.contains_cons, List.mem_append, List.mem_cons, or_comm])]
        rw [List.append_assoc]
        rfl
    · rename_i hcond
      have hyield : yieldNames (q0 :: bs) = yieldNames bs := by
        unfold yieldNames
        rw [List.filterMap_cons, if_neg hcond]
      rw [hyield, keys_assembleCols bs tabs]

/-- C8: for both parsers, every entry of the result mapping has at least one
column (so a table block that yields zero accepted column lines contributes
no entry), and at end of input the in-progress table is added to the result
exactly when a table is open (nonempty current name) and it has at least one
accepted column. -/
theorem c8_empty_tables_dropped :
    (∀ (content : String) (p : String × List Column),
        p ∈ parse_legacy_schema_file content → p.2 ≠ []) ∧
    (∀ (content : String) (p : String × List Column),
        p ∈ parse_ndc_plus_schema_file content → p.2 ≠ []) ∧
    (∀ (hOf : String → Option String) (cOf : String → Option Column) (st : PState),
        st.cur ≠ "" → st.cols ≠ [] →
        genLoop hOf cOf [] st = dictInsert st.tables st.cur st.cols) ∧
    (∀ (hOf : String → Option String) (cOf : String → Option Column) (st : PState),
        st.cur = "" ∨ st.cols = [] → genLoop hOf cOf [] st = st.tables) := by
  refine ⟨?_, ?_, ?_, ?_⟩
  · intro content p hp
    rw [parse_legacy_eq_blocks] at hp
    rcases mem_assembleCols _ _ _ hp with h1 | ⟨q, _, hpq, _, hq2⟩
    · exact absurd h1 (List.not_mem_nil _)
    · rw [hpq]
      exact hq2
  · intro content p hp
    rw [parse_ndc_eq_blocks] at hp
    rcases mem_assembleCols _ _ _ hp with h1 | ⟨q, _, hpq, _, hq2⟩
    · exact absurd h1 (List.not_mem_nil _)
    · rw [hpq]
      exact hq2
  · intro hOf cOf st h1 h2
    show flushState st = _
    rw [flushState, if_pos ⟨h1, h2⟩]
  · intro hOf cOf st h
    show flushState st = _
    rw [flushState, if_neg]
    rcases h with h | h
    · exact fun hc => hc.1 h
    · exact fun hc => hc.2 h

/-- C8 witness: the entry produced by parsing "TABLE: T\nA  B" has a
nonempty column list; at end of input a nonempty open table is inserted and
an open table with zero columns is dropped. -/
theorem c8_witness :
    (("T", [mkNdcColumn "A" "NULL" "B"]) : String × List Column).2 ≠ [] ∧
    genLoop ndcHeaderOf ndcColOf [] ⟨[], "T", [mkNdcColumn "A" "NULL" "B"]⟩ =
      dictInsert [] "T" [mkNdcColumn "A" "NULL" "B"] ∧
    genLoop ndcHeaderOf ndcColOf [] ⟨[], "T", []⟩ = [] :=
  ⟨c8_empty_tables_dropped.2.1 "TABLE: T\nA  B" ("T", [mkNdcColumn "A" "NULL" "B"])
     (by decide),
   c8_empty_tables_dropped.2.2.1 ndcHeaderOf ndcColOf ⟨[], "T", [mkNdcColumn "A" "NULL" "B"]⟩
     (by decide) (by decide),
   c8_empty_tables_dropped.2.2.2 ndcHeaderOf ndcColOf ⟨[], "T", []⟩ (Or.inr rfl)⟩

/-- C9: for both parsers, the iteration order of the result mapping's keys is
the order in which table headers that yielded at least one column first
appear in the input (first occurrences kept), and every entry's column list
is exactly the filterMap of the column recognizer over its block's body
lines, hence in source line order. -/
theorem c9_declaration_order (content : String) :
    keys (parse_ndc_plus_schema_file content) = dedupFirst (ndcYieldingHeaders content) ∧
    keys (parse_legacy_schema_file content) = dedupFirst (legacyYieldingHeaders content) ∧
    (∀ p, p ∈ parse_ndc_plus_schema_file content →
        ∃ b ∈ ndcBlocks content, p.1 = b.1 ∧ p.2 = colsOfBody ndcColOf b.2) ∧
    (∀ p, p ∈ parse_legacy_schema_file content →
        ∃ b ∈ legacyBlocks content, p.1 = b.1 ∧ p.2 = colsOfBody legacyColOf b.2) := by
  refine ⟨?_, ?_, ?_, ?_⟩
  · rw [parse_ndc_eq_blocks, keys_assembleCols]
    rfl
  · rw [parse_legacy_eq_blocks, keys_assembleCols]
    rfl
  · intro p hp
    rw [parse_ndc_eq_blocks] at hp
    rcases mem_assembleCols _ _ _ hp with h1 | ⟨q, hq, hpq, _, _⟩
    · exact absurd h1 (List.not_mem_nil _)
    · obtain ⟨b, hb, hbq⟩ := List.mem_map.mp hq
      refine ⟨b, hb, ?_, ?_⟩
      · rw [hpq, ← hbq]
      · rw [hpq, ← hbq]
  · intro p hp
    rw [parse_legacy_eq_blocks] at hp
    rcases mem_assembleCols _ _ _ hp with h1 | ⟨q, hq, hpq, _, _⟩
    · exact absurd h1 (List.not_mem_nil _)
    · obtain ⟨b, hb, hbq⟩ := List.mem_map.mp hq
      refine ⟨b, hb, ?_, ?_⟩
      · rw [hpq, ← hbq]
      · rw [hpq, ← hbq]

/-- C9 witness: on a two-table modern input the key order matches header
order, and the entry for table "T" carries its two columns in source line
order, as the filterMap over its block body. -/
theorem c9_witness :
    keys (parse_ndc_plus_schema_file "TABLE: T\nA  B\nC  D\nTABLE: U\nE  F") =
      dedupFirst (ndcYieldingHeaders "TABLE: T\nA  B\nC  D\nTABLE: U\nE  F") ∧
    ∃ b ∈ ndcBlocks "TABLE: T\nA  B\nC  D\nTABLE: U\nE  F",
      (("T", [mkNdcColumn "A" "NULL" "B", mkNdcColumn "C" "NULL" "D"]) :
          String × List Column).1 = b.1 ∧
      (("T", [mkNdcColumn "A" "NULL" "B", mkNdcColumn "C" "NULL" "D"]) :
          String × List Column).2 = colsOfBody ndcColOf b.2 :=
  ⟨(c9_declaration_order "TABLE: T\nA  B\nC  D\nTABLE: U\nE  F").1,
   (c9_declaration_order "TABLE: T\nA  B\nC  D\nTABLE: U\nE  F").2.2.1
     ("T", [mkNdcColumn "A" "NULL" "B", mkNdcColumn "C" "NULL" "D"]) (by decide)⟩

end SchemaTest
